import Mathlib

/-!
Verification of the mini-redis style server in this repository.

The Rust sources are shallowly embedded: machine integers become `Nat`
(the quantities involved — instants, durations, subscriber counts —
never exercise `u64` overflow in the code paths modelled, except where
noted for `atoi`), `HashMap` becomes an association list with unique
keys, `BTreeSet<(Instant, String)>` becomes a list sorted strictly by
the lexicographic order `pairLt`, fallible code returns `Except`, and
`Instant::now()` becomes an explicit `now : Nat` parameter.

`frame.rs` is declared in `lib.rs` but is not among the sources; the
`Frame` data type, the RESP decoder and `Frame`'s comparison with string
literals are therefore modelled from the specification (each such
definition carries a doc comment starting with `Modelled from the spec:`).
-/

namespace MiniRedis

/-- Monotonic instant (`tokio::time::Instant`), in milliseconds. -/
abbrev Instant := Nat

/-- `std::time::Duration`, in milliseconds. -/
abbrev Duration := Nat

/-- `Duration::from_secs` (whole seconds, expressed in milliseconds). -/
def Duration.fromSecs (secs : Nat) : Duration := 1000 * secs

/-- `Duration::from_millis`. -/
def Duration.fromMillis (ms : Nat) : Duration := ms

/-- Byte strings (`bytes::Bytes`): a list of byte values. -/
abbrev Bytes := List Nat

/-- A stored value (`db.rs`, `struct Entry`). -/
structure Entry where
  data : Bytes
  expires_at : Option Instant
deriving DecidableEq, Repr

/-- Lookup in an association list, embedding `HashMap::get`
(first entry with the given key; keys are unique by invariant). -/
def assocLookup {α : Type} : List (String × α) → String → Option α
  | [], _ => none
  | (k', v) :: rest, k => if k' = k then some v else assocLookup rest k

/-- Embedding of `HashMap::insert`: replace the entry for the key if
present (returning the previous value), otherwise add a fresh entry. -/
def assocInsert {α : Type} : List (String × α) → String → α → Option α × List (String × α)
  | [], k, v => (none, [(k, v)])
  | (k', v') :: rest, k, v =>
    if k' = k then (some v', (k, v) :: rest)
    else
      let r := assocInsert rest k v
      (r.1, (k', v') :: r.2)

/-- Embedding of `HashMap::remove` (drop the unique entry for the key). -/
def assocRemove {α : Type} : List (String × α) → String → List (String × α)
  | [], _ => []
  | (k', v') :: rest, k => if k' = k then rest else (k', v') :: assocRemove rest k

/-- Strict lexicographic order on `(Instant, String)` pairs: the order of
the `BTreeSet<(Instant, String)>` TTL index. -/
def pairLt (a b : Instant × String) : Prop :=
  a.1 < b.1 ∨ (a.1 = b.1 ∧ a.2 < b.2)

instance pairLt.decidable (a b : Instant × String) : Decidable (pairLt a b) :=
  inferInstanceAs (Decidable (a.1 < b.1 ∨ (a.1 = b.1 ∧ a.2 < b.2)))

/-- `BTreeSet::insert` on the sorted-list representation (no duplicate
is created when the element is already present). -/
def btreeInsert (x : Instant × String) : List (Instant × String) → List (Instant × String)
  | [] => [x]
  | y :: ys =>
    if pairLt x y then x :: y :: ys
    else if x = y then y :: ys
    else y :: btreeInsert x ys

/-- `BTreeSet::remove` on the list representation. -/
def btreeRemove (x : Instant × String) (l : List (Instant × String)) :
    List (Instant × String) :=
  l.filter (fun p => decide (p ≠ x))

/-- The shared state guarded by the single mutex (`db.rs`, `struct State`).
The `broadcast::Sender` of a pub/sub channel is modelled by its current
receiver count. -/
structure State where
  entries : List (String × Entry)
  pub_sub : List (String × Nat)
  expirations : List (Instant × String)
  shutdown : Bool

/-- `State::next_expiration`: the instant of the least element of the
TTL index (`expirations.iter().next().map(|e| e.0)`). -/
def State.next_expiration (s : State) : Option Instant :=
  s.expirations.head?.map Prod.fst

/-- `Db::get` (db.rs): point lookup, cloning the data; the entry's
`expires_at` field is not consulted. -/
def Db.get (s : State) (key : String) : Option Bytes :=
  (assocLookup s.entries key).map (fun entry => entry.data)

/-- `Db::set` (db.rs): under one critical section, compute the wake-up
flag from the pre-state's next expiration, insert the new entry
(capturing the previous one), drop the previous entry's TTL pair, then
insert the new pair. Returns the new state and the `notify` flag; the
caller posts the notification (after the mutex is released) exactly when
the flag is true. -/
def Db.set (s : State) (now : Instant) (key : String) (value : Bytes)
    (expire : Option Duration) : State × Bool :=
  let notify :=
    match expire with
    | none => false
    | some duration =>
      let when := now + duration
      match State.next_expiration s with
      | some expiration => decide (when < expiration)
      | none => true
  let expires_at := expire.map (fun duration => now + duration)
  let r := assocInsert s.entries key { data := value, expires_at := expires_at }
  let prev := r.1
  let entries' := r.2
  let expirations1 :=
    match prev with
    | some prevEntry =>
      match prevEntry.expires_at with
      | some whenPrev => btreeRemove (whenPrev, key) s.expirations
      | none => s.expirations
    | none => s.expirations
  let expirations2 :=
    match expires_at with
    | some when => btreeInsert (when, key) expirations1
    | none => expirations1
  ({ s with entries := entries', expirations := expirations2 }, notify)

/-- `broadcast::Sender::send`: delivers to the current receivers,
returning their count, or an error when there is no receiver. -/
def broadcastSend (receivers : Nat) (_value : Bytes) : Option Nat :=
  if receivers = 0 then none else some receivers

/-- `Db::publish` (db.rs): look up the channel's sender and send,
returning `0` when the channel has no sender or the send fails. -/
def Db.publish (s : State) (key : String) (value : Bytes) : Nat :=
  match assocLookup s.pub_sub key with
  | some tx => (broadcastSend tx value).getD 0
  | none => 0

/-- `Db::subscribe` (db.rs): get-or-insert the channel's broadcast
sender and add one receiver; returns the new state and the channel's
receiver count. -/
def Db.subscribe (s : State) (key : String) : State × Nat :=
  match assocLookup s.pub_sub key with
  | some n => ({ s with pub_sub := (assocInsert s.pub_sub key (n + 1)).2 }, n + 1)
  | none => ({ s with pub_sub := (assocInsert s.pub_sub key 1).2 }, 1)

/-- The sweep loop of `Shared::purge_expired_keys` (db.rs): while the
least pair of the TTL index is not after `now`, remove that key from
`entries` and the pair from `expirations`; stop returning the next
expiration instant. -/
def purgeLoop (now : Instant) (exps : List (Instant × String))
    (entries : List (String × Entry)) :
    List (Instant × String) × List (String × Entry) × Option Instant :=
  match exps with
  | [] => ([], entries, none)
  | (when, key) :: rest =>
    if now < when then ((when, key) :: rest, entries, some when)
    else purgeLoop now (btreeRemove (when, key) ((when, key) :: rest)) (assocRemove entries key)
termination_by exps.length
decreasing_by
  have h : (decide ((when, key) ≠ (when, key))) = false := by simp
  simp only [btreeRemove, List.filter_cons, h, if_false, List.length_cons]
  exact Nat.lt_succ_of_le (List.length_filter_le _ _)

/-- `Shared::purge_expired_keys` (db.rs): return immediately under
shutdown, otherwise run the sweep loop over the expired keys. -/
def Shared.purge_expired_keys (s : State) (now : Instant) : State × Option Instant :=
  if s.shutdown then (s, none)
  else
    let r := purgeLoop now s.expirations s.entries
    ({ s with expirations := r.1, entries := r.2.1 }, r.2.2)

/-! ### The coupling invariant between `entries` and `expirations` -/

/-- Coupling of a TTL index with an entry map: every entry with a TTL
has its pair in the index, and every pair points back to an entry with
exactly that TTL.  Together with sortedness of the index (which gives
uniqueness of each pair) this is the invariant of spec §3. -/
def InvParts (exps : List (Instant × String)) (entries : List (String × Entry)) : Prop :=
  (entries.map Prod.fst).Nodup ∧
  exps.Pairwise pairLt ∧
  (∀ k e t, assocLookup entries k = some e → e.expires_at = some t → (t, k) ∈ exps) ∧
  (∀ t k, (t, k) ∈ exps → ∃ e, assocLookup entries k = some e ∧ e.expires_at = some t)

/-- The store invariant of spec §3, on a whole state. -/
def Inv (s : State) : Prop := InvParts s.expirations s.entries

/-- The claim's phrasing of the coupling: an entry with TTL `t` has
exactly one pair `(t, key)` in the index, and every pair points back. -/
def CouplingOk (exps : List (Instant × String)) (entries : List (String × Entry)) : Prop :=
  (∀ k e t, assocLookup entries k = some e → e.expires_at = some t →
     exps.countP (fun p => decide (p = (t, k))) = 1) ∧
  (∀ t k, (t, k) ∈ exps → ∃ e, assocLookup entries k = some e ∧ e.expires_at = some t)

lemma pairLt_irrefl (a : Instant × String) : ¬ pairLt a a := by
  rintro (h | ⟨_, h⟩) <;> exact lt_irrefl _ h

lemma pairLt_trans {a b c : Instant × String} (h1 : pairLt a b) (h2 : pairLt b c) :
    pairLt a c := by
  rcases h1 with h1 | ⟨e1, l1⟩ <;> rcases h2 with h2 | ⟨e2, l2⟩
  · exact Or.inl (h1.trans h2)
  · exact Or.inl (e2 ▸ h1)
  · exact Or.inl (e1 ▸ h2)
  · exact Or.inr ⟨e1.trans e2, l1.trans l2⟩

lemma pairLt_connex {a b : Instant × String} (h1 : ¬ pairLt a b) (h2 : a ≠ b) :
    pairLt b a := by
  rcases Nat.lt_trichotomy a.1 b.1 with h | h | h
  · exact absurd (Or.inl h) h1
  · rcases lt_trichotomy a.2 b.2 with h' | h' | h'
    · exact absurd (Or.inr ⟨h, h'⟩) h1
    · exact absurd (Prod.ext_iff.mpr ⟨h, h'⟩) h2
    · exact Or.inr ⟨h.symm, h'⟩
  · exact Or.inl h

lemma pairwise_nodup {l : List (Instant × String)} (h : l.Pairwise pairLt) : l.Nodup := by
  induction l with
  | nil => simp
  | cons x xs ih =>
    rcases h with - | ⟨hx, hxs⟩
    refine List.nodup_cons.mpr ⟨fun hm => ?_, ih hxs⟩
    exact pairLt_irrefl x (hx x hm)

lemma nodup_countP_eq_one {l : List (Instant × String)} (h : l.Nodup)
    {p : Instant × String} (hm : p ∈ l) :
    l.countP (fun q => decide (q = p)) = 1 := by
  induction l with
  | nil => cases hm
  | cons x xs ih =>
    rcases List.nodup_cons.mp h with ⟨hx, hxs⟩
    rcases List.mem_cons.mp hm with rfl | hm
    · rw [List.countP_cons_of_pos _ _ (by simp)]
      have hz : xs.countP (fun q => decide (q = p)) = 0 := by
        refine List.countP_eq_zero.mpr ?_
        intro a ha hq
        rw [decide_eq_true_eq] at hq
        exact hx (hq ▸ ha)
      omega
    · rw [List.countP_cons_of_neg _ _ (by simp; rintro rfl; exact hx hm)]
      exact ih hxs hm

lemma mem_btreeRemove {x p : Instant × String} {l : List (Instant × String)} :
    p ∈ btreeRemove x l ↔ p ∈ l ∧ p ≠ x := by
  simp [btreeRemove, List.mem_filter]

lemma pairwise_btreeRemove {x : Instant × String} {l : List (Instant × String)}
    (h : l.Pairwise pairLt) : (btreeRemove x l).Pairwise pairLt :=
  h.sublist (List.filter_sublist l)

lemma mem_btreeInsert {x p : Instant × String} {l : List (Instant × String)} :
    p ∈ btreeInsert x l ↔ p = x ∨ p ∈ l := by
  induction l with
  | nil => simp [btreeInsert]
  | cons y ys ih =>
    by_cases h1 : pairLt x y
    · rw [btreeInsert, if_pos h1]
      simp [List.mem_cons]
      try tauto
    · by_cases h2 : x = y
      · subst h2
        rw [btreeInsert, if_neg h1, if_pos rfl]
        simp [List.mem_cons]
        try tauto
      · rw [btreeInsert, if_neg h1, if_neg h2]
        simp [List.mem_cons, ih]
        try tauto

lemma pairwise_btreeInsert {x : Instant × String} {l : List (Instant × String)}
    (h : l.Pairwise pairLt) : (btreeInsert x l).Pairwise pairLt := by
  induction l with
  | nil => simp [btreeInsert]
  | cons y ys ih =>
    rcases h with - | ⟨hy, hys⟩
    by_cases h1 : pairLt x y
    · rw [btreeInsert, if_pos h1]
      refine List.pairwise_cons.mpr ⟨?_, List.pairwise_cons.mpr ⟨hy, hys⟩⟩
      intro z hz
      rcases List.mem_cons.mp hz with rfl | hz
      · exact h1
      · exact pairLt_trans h1 (hy z hz)
    · by_cases h2 : x = y
      · rw [btreeInsert, if_neg h1, if_pos h2]
        exact List.pairwise_cons.mpr ⟨hy, hys⟩
      · rw [btreeInsert, if_neg h1, if_neg h2]
        refine List.pairwise_cons.mpr ⟨?_, ih hys⟩
        intro z hz
        rcases mem_btreeInsert.mp hz with rfl | hz
        · exact pairLt_connex h1 h2
        · exact hy z hz

/-! ### Association-list lemmas -/

lemma assocInsert_fst {α : Type} (l : List (String × α)) (k : String) (v : α) :
    (assocInsert l k v).1 = assocLookup l k := by
  induction l with
  | nil => simp [assocInsert, assocLookup]
  | cons p rest ih =>
    obtain ⟨k', v'⟩ := p
    by_cases h : k' = k <;> simp [assocInsert, assocLookup, h, ih]

lemma assocLookup_insert {α : Type} (l : List (String × α)) (k : String) (v : α)
    (q : String) :
    assocLookup (assocInsert l k v).2 q = if k = q then some v else assocLookup l q := by
  induction l with
  | nil =>
    by_cases h : k = q <;> simp [assocInsert, assocLookup, h]
  | cons p rest ih =>
    obtain ⟨k', v'⟩ := p
    by_cases h : k' = k
    · subst h
      by_cases hq : k' = q <;> simp [assocInsert, assocLookup, hq]
    · by_cases hq : k' = q
      · subst hq
        have hkq : ¬ k = k' := fun h' => h h'.symm
        simp [assocInsert, assocLookup, h, hkq]
      · simp [assocInsert, assocLookup, h, hq, ih]

lemma assocLookup_eq_none {α : Type} {l : List (String × α)} {k : String}
    (h : k ∉ l.map Prod.fst) : assocLookup l k = none := by
  induction l with
  | nil => simp [assocLookup]
  | cons p rest ih =>
    obtain ⟨k', v'⟩ := p
    simp only [List.map_cons, List.mem_cons] at h
    push_neg at h
    have : k' ≠ k := fun h' => h.1 (h' ▸ rfl)
    simp [assocLookup, this, ih h.2]

lemma mem_keys_assocInsert {α : Type} {l : List (String × α)} {k q : String} {v : α} :
    q ∈ (assocInsert l k v).2.map Prod.fst ↔ q = k ∨ q ∈ l.map Prod.fst := by
  induction l with
  | nil => simp [assocInsert]
  | cons p rest ih =>
    obtain ⟨k', v'⟩ := p
    by_cases h : k' = k
    · subst h
      simp [assocInsert]
      try tauto
    · simp [assocInsert, h, ih]
      try tauto

lemma keys_nodup_assocInsert {α : Type} {l : List (String × α)} {k : String} {v : α}
    (h : (l.map Prod.fst).Nodup) : ((assocInsert l k v).2.map Prod.fst).Nodup := by
  induction l with
  | nil => simp [assocInsert]
  | cons p rest ih =>
    obtain ⟨k', v'⟩ := p
    simp only [List.map_cons, List.nodup_cons] at h
    by_cases hk : k' = k
    · subst hk
      simpa [assocInsert] using h
    · simp only [assocInsert, if_neg hk, List.map_cons, List.nodup_cons]
      refine ⟨fun hm => ?_, ih h.2⟩
      rcases mem_keys_assocInsert.mp hm with rfl | hm
      · exact hk rfl
      · exact h.1 hm

lemma assocRemove_sublist {α : Type} (l : List (String × α)) (k : String) :
    List.Sublist (assocRemove l k) l := by
  induction l with
  | nil => simp [assocRemove]
  | cons p rest ih =>
    obtain ⟨k', v'⟩ := p
    by_cases h : k' = k
    · simp only [assocRemove, if_pos h]
      exact List.sublist_cons_self _ _
    · simp only [assocRemove, if_neg h]
      exact ih.cons₂ _

lemma keys_nodup_assocRemove {α : Type} {l : List (String × α)} {k : String}
    (h : (l.map Prod.fst).Nodup) : ((assocRemove l k).map Prod.fst).Nodup :=
  h.sublist ((assocRemove_sublist l k).map Prod.fst)

lemma assocLookup_remove {α : Type} {l : List (String × α)} {k : String}
    (hnd : (l.map Prod.fst).Nodup) (q : String) :
    assocLookup (assocRemove l k) q = if q = k then none else assocLookup l q := by
  induction l with
  | nil => by_cases h : q = k <;> simp [assocRemove, assocLookup, h]
  | cons p rest ih =>
    obtain ⟨k', v'⟩ := p
    simp only [List.map_cons, List.nodup_cons] at hnd
    by_cases h : k' = k
    · subst h
      by_cases hq : q = k'
      · subst hq
        simp [assocRemove, assocLookup, assocLookup_eq_none hnd.1]
      · have : ¬ k' = q := fun h' => hq h'.symm
        simp [assocRemove, assocLookup, hq, this]
    · by_cases hq : k' = q
      · subst hq
        simp [assocRemove, assocLookup, h]
      · simp [assocRemove, assocLookup, h, hq, ih hnd.2]

/-! ### Preservation of the coupling invariant -/

/-- The TTL-index update performed by `Db::set`, as a function of the
previous entry (if any) and the new expiration instant (if any):
remove the previous pair, then insert the new pair. -/
def setExpsUpdate (exps : List (Instant × String)) (prevLookup : Option Entry)
    (key : String) (newWhen : Option Instant) : List (Instant × String) :=
  let exps1 :=
    match prevLookup with
    | some prevEntry =>
      match prevEntry.expires_at with
      | some whenPrev => btreeRemove (whenPrev, key) exps
      | none => exps
    | none => exps
  match newWhen with
  | some when => btreeInsert (when, key) exps1
  | none => exps1

lemma set_result_eq (s : State) (now : Instant) (key : String) (value : Bytes)
    (expire : Option Duration) :
    (Db.set s now key value expire).1 =
      { s with
        entries := (assocInsert s.entries key
          { data := value, expires_at := expire.map (fun duration => now + duration) }).2,
        expirations := setExpsUpdate s.expirations (assocLookup s.entries key) key
          (expire.map (fun duration => now + duration)) } := by
  simp only [Db.set, setExpsUpdate, assocInsert_fst]

/-- The coupling invariant away from one key: sortedness plus coupling
for every key other than `key`, and no pair of `key` left in the index. -/
def InvAway (exps : List (Instant × String)) (entries : List (String × Entry))
    (key : String) : Prop :=
  exps.Pairwise pairLt ∧
  (∀ k e t, k ≠ key → assocLookup entries k = some e → e.expires_at = some t →
     (t, k) ∈ exps) ∧
  (∀ t k, (t, k) ∈ exps →
     k ≠ key ∧ ∃ e, assocLookup entries k = some e ∧ e.expires_at = some t)

lemma invAway_of_remove_prev {exps : List (Instant × String)}
    {entries : List (String × Entry)} {key : String}
    (h : InvParts exps entries) :
    InvAway
      (match assocLookup entries key with
       | some prevEntry =>
         match prevEntry.expires_at with
         | some whenPrev => btreeRemove (whenPrev, key) exps
         | none => exps
       | none => exps)
      entries key := by
  obtain ⟨hnd, hsort, hfwd, hbwd⟩ := h
  rcases hprev : assocLookup entries key with _ | prevE
  · refine ⟨hsort, fun k e t _ hlk het => hfwd k e t hlk het, ?_⟩
    intro t k hm
    obtain ⟨e, hlk, het⟩ := hbwd t k hm
    refine ⟨fun hk => ?_, e, hlk, het⟩
    rw [hk, hprev] at hlk
    cases hlk
  · rcases hpe : prevE.expires_at with _ | whenPrev
    · simp only [hpe]
      refine ⟨hsort, fun k e t _ hlk het => hfwd k e t hlk het, ?_⟩
      intro t k hm
      obtain ⟨e, hlk, het⟩ := hbwd t k hm
      refine ⟨fun hk => ?_, e, hlk, het⟩
      rw [hk, hprev] at hlk
      injection hlk with he
      rw [← he, hpe] at het
      cases het
    · simp only [hpe]
      refine ⟨pairwise_btreeRemove hsort, ?_, ?_⟩
      · intro k e t hk hlk het
        refine mem_btreeRemove.mpr ⟨hfwd k e t hlk het, fun hcontra => ?_⟩
        exact hk (congrArg Prod.snd hcontra)
      · intro t k hm
        obtain ⟨hm', hne⟩ := mem_btreeRemove.mp hm
        obtain ⟨e, hlk, het⟩ := hbwd t k hm'
        refine ⟨fun hk => ?_, e, hlk, het⟩
        rw [hk, hprev] at hlk
        injection hlk with he
        rw [← he, hpe] at het
        injection het with ht
        exact hne (by rw [ht, hk])

lemma invParts_setExpsUpdate {exps : List (Instant × String)}
    {entries : List (String × Entry)} (key : String) (newE : Entry)
    (h : InvParts exps entries) :
    InvParts (setExpsUpdate exps (assocLookup entries key) key newE.expires_at)
      (assocInsert entries key newE).2 := by
  have haway : InvAway
      (match assocLookup entries key with
       | some prevEntry =>
         match prevEntry.expires_at with
         | some whenPrev => btreeRemove (whenPrev, key) exps
         | none => exps
       | none => exps)
      entries key := invAway_of_remove_prev h
  obtain ⟨hnd, _, _, _⟩ := h
  obtain ⟨hsort1, hfwd1, hbwd1⟩ := haway
  have hlkins := assocLookup_insert entries key newE
  rcases hNew : newE.expires_at with _ | when
  · refine ⟨keys_nodup_assocInsert hnd, hsort1, ?_, ?_⟩
    · intro k e t hlk het
      rw [hlkins k] at hlk
      by_cases hk : key = k
      · rw [if_pos hk] at hlk
        injection hlk with he
        rw [← he, hNew] at het
        cases het
      · rw [if_neg hk] at hlk
        exact hfwd1 k e t (fun h' => hk h'.symm) hlk het
    · intro t k hm
      obtain ⟨hkne, e, hlk, het⟩ := hbwd1 t k hm
      refine ⟨e, ?_, het⟩
      rw [hlkins k, if_neg (fun h' => hkne h'.symm)]
      exact hlk
  · refine ⟨keys_nodup_assocInsert hnd, ?_, ?_, ?_⟩
    · simpa [setExpsUpdate, hNew] using pairwise_btreeInsert hsort1
    · intro k e t hlk het
      rw [hlkins k] at hlk
      simp only [setExpsUpdate, hNew]
      by_cases hk : key = k
      · rw [if_pos hk] at hlk
        injection hlk with he
        rw [← he, hNew] at het
        injection het with ht
        exact mem_btreeInsert.mpr (Or.inl (by rw [ht, hk]))
      · rw [if_neg hk] at hlk
        exact mem_btreeInsert.mpr
          (Or.inr (hfwd1 k e t (fun h' => hk h'.symm) hlk het))
    · intro t k hm
      simp only [setExpsUpdate, hNew] at hm
      rcases mem_btreeInsert.mp hm with heq | hm'
      · obtain ⟨ht, hk⟩ := Prod.mk.injEq _ _ _ _ ▸ heq
        refine ⟨newE, ?_, ?_⟩
        · rw [hlkins k, if_pos hk.symm]
        · rw [hNew, ht]
      · obtain ⟨hkne, e, hlk, het⟩ := hbwd1 t k hm'
        refine ⟨e, ?_, het⟩
        rw [hlkins k, if_neg (fun h' => hkne h'.symm)]
        exact hlk

lemma inv_set (s : State) (now : Instant) (key : String) (value : Bytes)
    (expire : Option Duration) (h : Inv s) :
    Inv (Db.set s now key value expire).1 := by
  rw [Inv, set_result_eq]
  exact invParts_setExpsUpdate key
    { data := value, expires_at := expire.map (fun duration => now + duration) } h

lemma inv_subscribe (s : State) (ch : String) (h : Inv s) :
    Inv (Db.subscribe s ch).1 := by
  rcases hm : assocLookup s.pub_sub ch with _ | n <;>
    simpa [Db.subscribe, hm, Inv] using h

lemma invParts_remove_pair {exps : List (Instant × String)}
    {entries : List (String × Entry)} {when : Instant} {key : String}
    (h : InvParts exps entries) (hm : (when, key) ∈ exps) :
    InvParts (btreeRemove (when, key) exps) (assocRemove entries key) := by
  obtain ⟨hnd, hsort, hfwd, hbwd⟩ := h
  refine ⟨keys_nodup_assocRemove hnd, pairwise_btreeRemove hsort, ?_, ?_⟩
  · intro k e t hlk het
    rw [assocLookup_remove hnd] at hlk
    by_cases hk : k = key
    · rw [if_pos hk] at hlk
      cases hlk
    · rw [if_neg hk] at hlk
      refine mem_btreeRemove.mpr ⟨hfwd k e t hlk het, fun hcontra => ?_⟩
      exact hk (congrArg Prod.snd hcontra)
  · intro t k hmem
    obtain ⟨hmem', hne⟩ := mem_btreeRemove.mp hmem
    obtain ⟨e, hlk, het⟩ := hbwd t k hmem'
    by_cases hk : k = key
    · exfalso
      obtain ⟨e', hlk', het'⟩ := hbwd when key hm
      rw [hk, hlk'] at hlk
      injection hlk with he
      rw [← he, het'] at het
      injection het with ht
      exact hne (by rw [← ht, hk])
    · refine ⟨e, ?_, het⟩
      rw [assocLookup_remove hnd, if_neg hk]
      exact hlk

lemma invParts_purgeLoop (now : Instant) (exps : List (Instant × String))
    (entries : List (String × Entry)) (h : InvParts exps entries) :
    InvParts (purgeLoop now exps entries).1 (purgeLoop now exps entries).2.1 := by
  generalize hlen : exps.length = n
  induction n using Nat.strong_induction_on generalizing exps entries with
  | _ n ih =>
    match exps with
    | [] => simpa [purgeLoop] using h
    | (when, key) :: rest =>
      rw [purgeLoop]
      by_cases hlt : now < when
      · rw [if_pos hlt]
        exact h
      · rw [if_neg hlt]
        have hstep := invParts_remove_pair h (List.mem_cons_self _ _)
        have hshort : (btreeRemove (when, key) ((when, key) :: rest)).length < n := by
          have hne : (decide ((when, key) ≠ (when, key))) = false := by simp
          rw [← hlen]
          simp only [btreeRemove, List.filter_cons, hne, if_false, List.length_cons]
          exact Nat.lt_succ_of_le (List.length_filter_le _ _)
        exact ih _ hshort _ _ hstep rfl

lemma inv_purge (s : State) (now : Instant) (h : Inv s) :
    Inv (Shared.purge_expired_keys s now).1 := by
  by_cases hsd : s.shutdown
  · simpa [Shared.purge_expired_keys, hsd] using h
  · simpa [Shared.purge_expired_keys, hsd, Inv] using
      invParts_purgeLoop now s.expirations s.entries h

lemma invParts_couplingOk {exps : List (Instant × String)}
    {entries : List (String × Entry)} (h : InvParts exps entries) :
    CouplingOk exps entries := by
  obtain ⟨_, hsort, hfwd, hbwd⟩ := h
  exact ⟨fun k e t hlk het =>
    nodup_countP_eq_one (pairwise_nodup hsort) (hfwd k e t hlk het), hbwd⟩

/-- C1: every operation of the store (`set` with or without a TTL,
`get`, `publish`, `subscribe`, the sweeper's purge pass) preserves the
coupling invariant between `entries` and `expirations`: each entry with
`expires_at = Some t` has exactly one pair `(t, key)` in `expirations`,
each pair points back to an entry with that exact TTL, and a `SET`
replacing an entry carrying a TTL leaves the old pair in the index only
if it coincides with the new one (so no stale pair survives).  `get`
and `publish` read the state without modifying `entries` or
`expirations` (their embeddings return no state), so the invariant is
untouched by them. -/
theorem C1_coupling_invariant (s : State) (h : Inv s) (now : Instant)
    (key ch : String) (value : Bytes) (expire : Option Duration) :
    (Inv (Db.set s now key value expire).1 ∧
      CouplingOk (Db.set s now key value expire).1.expirations
        (Db.set s now key value expire).1.entries) ∧
    (Inv (Db.subscribe s ch).1 ∧
      CouplingOk (Db.subscribe s ch).1.expirations (Db.subscribe s ch).1.entries) ∧
    (Inv (Shared.purge_expired_keys s now).1 ∧
      CouplingOk (Shared.purge_expired_keys s now).1.expirations
        (Shared.purge_expired_keys s now).1.entries) ∧
    (∀ prevE oldWhen, assocLookup s.entries key = some prevE →
      prevE.expires_at = some oldWhen →
      (oldWhen, key) ∈ (Db.set s now key value expire).1.expirations →
      expire.map (fun duration => now + duration) = some oldWhen) := by
  have hset := inv_set s now key value expire h
  have hsub := inv_subscribe s ch h
  have hpurge := inv_purge s now h
  refine ⟨⟨hset, invParts_couplingOk hset⟩, ⟨hsub, invParts_couplingOk hsub⟩,
    ⟨hpurge, invParts_couplingOk hpurge⟩, ?_⟩
  intro prevE oldWhen _ _ hmem
  obtain ⟨_, _, _, hbwd⟩ := hset
  obtain ⟨e, hlk, het⟩ := hbwd oldWhen key hmem
  rw [set_result_eq] at hlk
  rw [assocLookup_insert, if_pos rfl] at hlk
  injection hlk with he
  rw [← het, ← he]

/-- C1 witness: the invariant holds of the empty store, and the
operations preserve it there. -/
theorem C1_witness :
    Inv { entries := [], pub_sub := [], expirations := [], shutdown := false } ∧
    Inv (Db.set { entries := [], pub_sub := [], expirations := [], shutdown := false }
      5 "k" [1, 2] (some 3)).1 := by
  have hinv : Inv { entries := [], pub_sub := [], expirations := [], shutdown := false } := by
    refine ⟨by simp, by simp, ?_, ?_⟩
    · intro k e t hlk
      simp [assocLookup] at hlk
    · intro t k hm
      simp at hm
  exact ⟨hinv, (C1_coupling_invariant _ hinv 5 "k" "ch" [1, 2] (some 3)).1.1⟩

/-! ### C2: the sweeper-wake flag of `Db::set` -/

/-- C2: `set` computes `notify` as true exactly when a TTL is provided
and either the TTL index is empty or its current earliest instant is
strictly greater than the new expiry `when = now + d`.  The earliest
instant is the pre-state's `next_expiration` — read before the replaced
entry's old pair is removed (the whole flag is a function of the state
before any mutation).  In the embedding, `Db.set` only returns the flag
together with the already-updated state; the caller posts the
notification afterwards, mirroring the notify-after-unlock order of the
source.  The last conjunct shows `next_expiration` really is the least
instant of the sorted index. -/
theorem C2_set_notify (s : State) (now : Instant) (key : String) (value : Bytes) :
    ((Db.set s now key value none).2 = false) ∧
    (∀ d : Duration, ((Db.set s now key value (some d)).2 = true ↔
        (s.expirations = [] ∨
          ∃ e, State.next_expiration s = some e ∧ now + d < e))) ∧
    (s.expirations.Pairwise pairLt →
      ∀ e, State.next_expiration s = some e → ∀ p ∈ s.expirations, e ≤ p.1) := by
  refine ⟨by simp [Db.set], ?_, ?_⟩
  · intro d
    rcases hne : State.next_expiration s with _ | e0
    · have hnil : s.expirations = [] := by
        rw [State.next_expiration] at hne
        rcases hexp : s.expirations with _ | ⟨p, rest⟩
        · rfl
        · rw [hexp] at hne
          simp at hne
      simp [Db.set, hne, hnil]
    · have hnonnil : s.expirations ≠ [] := by
        intro hnil
        rw [State.next_expiration, hnil] at hne
        simp at hne
      simp only [Db.set, hne]
      constructor
      · intro hdec
        rw [decide_eq_true_eq] at hdec
        exact Or.inr ⟨e0, rfl, hdec⟩
      · rintro (hnil | ⟨e, he, hlt⟩)
        · exact absurd hnil hnonnil
        · injection he with he'
          rw [decide_eq_true_eq, he']
          exact hlt
  · intro hsort e he p hp
    rw [State.next_expiration] at he
    rcases hexp : s.expirations with _ | ⟨⟨t0, k0⟩, rest⟩
    · rw [hexp] at hp
      cases hp
    · rw [hexp] at he hp hsort
      simp only [List.head?_cons, Option.map_some] at he
      have he2 : some t0 = some e := he
      injection he2 with he'
      rcases List.mem_cons.mp hp with rfl | hp'
      · exact Nat.le_of_eq he'.symm
      · rcases List.pairwise_cons.mp hsort with ⟨hhead, _⟩
        rcases hhead p hp' with hlt | ⟨heq, _⟩
        · have hw : t0 < p.1 := hlt
          exact he' ▸ Nat.le_of_lt hw
        · have hw : t0 = p.1 := heq
          exact Nat.le_of_eq (he'.symm.trans hw)

/-- C2 witness: at the empty store, a `set` without TTL does not wake
the sweeper, and a `set` with a TTL does (the index is empty). -/
theorem C2_witness :
    (Db.set { entries := [], pub_sub := [], expirations := [], shutdown := false }
        5 "k" [1] none).2 = false ∧
    (Db.set { entries := [], pub_sub := [], expirations := [], shutdown := false }
        5 "k" [1] (some 3)).2 = true := by
  have h := C2_set_notify
    { entries := [], pub_sub := [], expirations := [], shutdown := false } 5 "k" [1]
  exact ⟨h.1, (h.2.1 3).mpr (Or.inl rfl)⟩

/-! ### C10: `get` never consults `expires_at`; only the sweeper expires -/

lemma assocLookup_none_iff {α : Type} {l : List (String × α)} {k : String} :
    assocLookup l k = none ↔ k ∉ l.map Prod.fst := by
  induction l with
  | nil => simp [assocLookup]
  | cons p rest ih =>
    obtain ⟨k', v'⟩ := p
    by_cases h : k' = k
    · subst h
      simp [assocLookup]
    · simp only [assocLookup, if_neg h, List.map_cons, List.mem_cons, ih]
      constructor
      · intro hk hor
        rcases hor with heq | hm
        · exact h heq.symm
        · exact hk hm
      · intro hall hm
        exact hall (Or.inr hm)

lemma assocLookup_remove_none {α : Type} {l : List (String × α)} {k q : String}
    (h : assocLookup l q = none) : assocLookup (assocRemove l k) q = none := by
  rw [assocLookup_none_iff] at h ⊢
  intro hm
  exact h (((assocRemove_sublist l k).map Prod.fst).mem hm)

lemma purgeLoop_lookup_none (now : Instant) (exps : List (Instant × String))
    (entries : List (String × Entry)) (k : String)
    (h : assocLookup entries k = none) :
    assocLookup (purgeLoop now exps entries).2.1 k = none := by
  generalize hlen : exps.length = n
  induction n using Nat.strong_induction_on generalizing exps entries with
  | _ n ih =>
    match exps with
    | [] => simpa [purgeLoop] using h
    | (when, key) :: rest =>
      rw [purgeLoop]
      by_cases hlt : now < when
      · rw [if_pos hlt]
        exact h
      · rw [if_neg hlt]
        have hshort : (btreeRemove (when, key) ((when, key) :: rest)).length < n := by
          have hne : (decide ((when, key) ≠ (when, key))) = false := by simp
          rw [← hlen]
          simp only [btreeRemove, List.filter_cons, hne, if_false, List.length_cons]
          exact Nat.lt_succ_of_le (List.length_filter_le _ _)
        exact ih _ hshort _ _ (assocLookup_remove_none h) rfl

lemma purgeLoop_removes (now : Instant) (exps : List (Instant × String))
    (entries : List (String × Entry)) (hsort : exps.Pairwise pairLt)
    (hnd : (entries.map Prod.fst).Nodup) (t : Instant) (k : String)
    (hm : (t, k) ∈ exps) (hle : t ≤ now) :
    assocLookup (purgeLoop now exps entries).2.1 k = none := by
  generalize hlen : exps.length = n
  induction n using Nat.strong_induction_on generalizing exps entries with
  | _ n ih =>
    match exps with
    | [] => cases hm
    | (when, key) :: rest =>
      rw [purgeLoop]
      by_cases hlt : now < when
      · exfalso
        rcases List.mem_cons.mp hm with heq | hm'
        · rw [Prod.mk.injEq] at heq
          obtain ⟨ht, -⟩ := heq
          exact Nat.lt_irrefl now (Nat.lt_of_lt_of_le hlt (ht ▸ hle))
        · rcases List.pairwise_cons.mp hsort with ⟨hhead, _⟩
          rcases hhead (t, k) hm' with hlt' | ⟨heq', _⟩
          · have hw : when < t := hlt'
            exact Nat.lt_irrefl now (Nat.lt_of_lt_of_le (Nat.lt_trans hlt hw) hle)
          · have hw : when = t := heq'
            exact Nat.lt_irrefl now (Nat.lt_of_lt_of_le (hw ▸ hlt) hle)
      · rw [if_neg hlt]
        have hshort : (btreeRemove (when, key) ((when, key) :: rest)).length < n := by
          have hne : (decide ((when, key) ≠ (when, key))) = false := by simp
          rw [← hlen]
          simp only [btreeRemove, List.filter_cons, hne, if_false, List.length_cons]
          exact Nat.lt_succ_of_le (List.length_filter_le _ _)
        by_cases hk : k = key
        · refine purgeLoop_lookup_none now _ _ k ?_
          rw [assocLookup_remove hnd, if_pos hk]
        · refine ih _ hshort _ _ (pairwise_btreeRemove hsort)
            (keys_nodup_assocRemove hnd) ?_ rfl
          refine mem_btreeRemove.mpr ⟨hm, fun hcontra => ?_⟩
          exact hk (congrArg Prod.snd hcontra)

/-- C10: `Db::get` never consults `expires_at`: an entry whose expiry
instant is already in the past is still returned by `get` as long as
the sweeper has not run; running the sweeper's purge pass over that
instant removes the entry, after which `get` returns `None`.  Expiry is
thus enacted solely by the sweeper. -/
theorem C10_get_ignores_expiry (s : State) (k : String) (v : Bytes)
    (t now : Instant) (hlk : assocLookup s.entries k = some ⟨v, some t⟩)
    (hpast : t < now) (hsd : s.shutdown = false) (hinv : Inv s) :
    Db.get s k = some v ∧
    Db.get (Shared.purge_expired_keys s now).1 k = none := by
  obtain ⟨hnd, hsort, hfwd, _⟩ := hinv
  constructor
  · simp [Db.get, hlk]
  · have hm : (t, k) ∈ s.expirations := hfwd k ⟨v, some t⟩ t hlk rfl
    have hremoved := purgeLoop_removes now s.expirations s.entries hsort hnd t k hm
      (Nat.le_of_lt hpast)
    simp [Shared.purge_expired_keys, hsd, Db.get, hremoved]

lemma inv_example :
    Inv { entries := [("k", ⟨[7], some 3⟩)], pub_sub := [],
          expirations := [(3, "k")], shutdown := false } := by
  refine ⟨by simp, by simp, ?_, ?_⟩
  · intro k e t hlk het
    simp only [assocLookup] at hlk
    split at hlk
    · next h =>
      injection hlk with he
      rw [← he] at het
      have het2 : some 3 = some t := het
      injection het2 with ht
      simp [← h, ← ht]
    · cases hlk
  · intro t k hm
    simp only [List.mem_singleton, Prod.mk.injEq] at hm
    obtain ⟨rfl, rfl⟩ := hm
    exact ⟨⟨[7], some 3⟩, by decide, rfl⟩

/-- C10 witness: a concrete store holding key `"k"` with an expiry
already past still answers `get` with the value; one purge pass later
`get` answers `None`. -/
theorem C10_witness :
    Db.get { entries := [("k", ⟨[7], some 3⟩)], pub_sub := [],
             expirations := [(3, "k")], shutdown := false } "k" = some [7] ∧
    Db.get (Shared.purge_expired_keys
      { entries := [("k", ⟨[7], some 3⟩)], pub_sub := [],
        expirations := [(3, "k")], shutdown := false } 10).1 "k" = none :=
  C10_get_ignores_expiry _ "k" [7] 3 10 (by decide) (by decide) rfl inv_example

/-! ### Frames (spec §3) and C3: PUBLISH returns the subscriber count -/

/-- Modelled from the spec: `frame.rs` is declared in `lib.rs` but is
not among the sources.  Spec §3 gives the `Frame` tagged union:
Simple/Error status lines, an unsigned 64-bit Integer, a binary-safe
Bulk string, Null, and Array of frames. -/
inductive Frame where
  | Simple (s : String)
  | Error (s : String)
  | Integer (n : Nat)
  | Bulk (data : Bytes)
  | Null
  | Array (frames : List Frame)

/-- The response frame `Publish::apply` writes (cmd/publish.rs): the
subscriber count returned by `Db::publish`, as an Integer frame. -/
def Publish.applyResponse (s : State) (channel : String) (message : Bytes) : Frame :=
  Frame.Integer (Db.publish s channel message)

/-- C3: `publish(channel, message)` returns the number of subscribers
of the channel's broadcast sender at the moment of the send (the
sender is modelled by its receiver count); it returns `0` when the
`pub_sub` map has no sender for the channel, and also when the sender
exists but has no receivers; the server's PUBLISH reply is that count
as an Integer frame. -/
theorem C3_publish_count (s : State) (channel : String) (msg : Bytes) :
    (∀ n, assocLookup s.pub_sub channel = some n → Db.publish s channel msg = n) ∧
    (assocLookup s.pub_sub channel = none → Db.publish s channel msg = 0) ∧
    (assocLookup s.pub_sub channel = some 0 → Db.publish s channel msg = 0) ∧
    Publish.applyResponse s channel msg = Frame.Integer (Db.publish s channel msg) := by
  refine ⟨?_, ?_, ?_, rfl⟩
  · intro n hlk
    by_cases hn : n = 0 <;> simp [Db.publish, hlk, broadcastSend, hn]
  · intro hlk
    simp [Db.publish, hlk]
  · intro hlk
    simp [Db.publish, hlk, broadcastSend]

/-- C3 witness: a store whose channel `"c"` has two receivers answers
PUBLISH with 2; an unknown channel and a receiverless channel answer 0. -/
theorem C3_witness :
    Db.publish { entries := [], pub_sub := [("c", 2), ("z", 0)],
                 expirations := [], shutdown := false } "c" [1] = 2 ∧
    Db.publish { entries := [], pub_sub := [("c", 2), ("z", 0)],
                 expirations := [], shutdown := false } "missing" [1] = 0 ∧
    Db.publish { entries := [], pub_sub := [("c", 2), ("z", 0)],
                 expirations := [], shutdown := false } "z" [1] = 0 := by
  have h1 := C3_publish_count
    { entries := [], pub_sub := [("c", 2), ("z", 0)], expirations := [], shutdown := false }
    "c" [1]
  have h2 := C3_publish_count
    { entries := [], pub_sub := [("c", 2), ("z", 0)], expirations := [], shutdown := false }
    "missing" [1]
  have h3 := C3_publish_count
    { entries := [], pub_sub := [("c", 2), ("z", 0)], expirations := [], shutdown := false }
    "z" [1]
  exact ⟨h1.1 2 (by decide), h2.2.1 (by decide), h3.2.2.1 (by decide)⟩

/-! ### UTF-8 and `atoi` models (Rust std / external crate helpers) -/

/-- UTF-8 encoding of one code point (the byte view Rust strings expose). -/
def utf8EncodeChar (c : Char) : List Nat :=
  let n := c.toNat
  if n < 0x80 then [n]
  else if n < 0x800 then [0xC0 + n / 64, 0x80 + n % 64]
  else if n < 0x10000 then [0xE0 + n / 4096, 0x80 + (n / 64) % 64, 0x80 + n % 64]
  else [0xF0 + n / 262144, 0x80 + (n / 4096) % 64, 0x80 + (n / 64) % 64, 0x80 + n % 64]

def utf8EncodeList : List Char → List Nat
  | [] => []
  | c :: cs => utf8EncodeChar c ++ utf8EncodeList cs

/-- The UTF-8 bytes of a string (`str::as_bytes` / `String::into_bytes`). -/
def utf8Encode (s : String) : List Nat := utf8EncodeList s.data

def isUtf8Cont (b : Nat) : Bool := 0x80 ≤ b && b < 0xC0

/-- UTF-8 decoding (`str::from_utf8`): rejects stray continuation
bytes, overlong encodings, surrogates and out-of-range code points. -/
def utf8DecodeList : List Nat → Option (List Char)
  | [] => some []
  | b :: rest =>
    if b < 0x80 then (utf8DecodeList rest).map (Char.ofNat b :: ·)
    else if b < 0xC2 then none
    else if b < 0xE0 then
      match rest with
      | b1 :: rest' =>
        if isUtf8Cont b1 then
          (utf8DecodeList rest').map (Char.ofNat ((b - 0xC0) * 64 + (b1 - 0x80)) :: ·)
        else none
      | [] => none
    else if b < 0xF0 then
      match rest with
      | b1 :: b2 :: rest' =>
        if isUtf8Cont b1 && isUtf8Cont b2 then
          let n := (b - 0xE0) * 4096 + (b1 - 0x80) * 64 + (b2 - 0x80)
          if n < 0x800 || (0xD800 ≤ n && n < 0xE000) then none
          else (utf8DecodeList rest').map (Char.ofNat n :: ·)
        else none
      | _ => none
    else if b < 0xF5 then
      match rest with
      | b1 :: b2 :: b3 :: rest' =>
        if isUtf8Cont b1 && isUtf8Cont b2 && isUtf8Cont b3 then
          let n := (b - 0xF0) * 262144 + (b1 - 0x80) * 4096 + (b2 - 0x80) * 64 + (b3 - 0x80)
          if n < 0x10000 || 0x110000 ≤ n then none
          else (utf8DecodeList rest').map (Char.ofNat n :: ·)
        else none
      | _ => none
    else none

def utf8Decode (bs : List Nat) : Option String :=
  (utf8DecodeList bs).map fun cs => { data := cs }

def isAsciiDigit (b : Nat) : Bool := 48 ≤ b && b ≤ 57

def atoiLoop : List Nat → Nat → Option Nat
  | [], acc => some acc
  | b :: rest, acc =>
    if isAsciiDigit b then
      let acc' := acc * 10 + (b - 48)
      if acc' < 2 ^ 64 then atoiLoop rest acc' else none
    else some acc

/-- Models the external `atoi` crate's `atoi::<u64>`: parse the leading
ASCII digits (at least one is required), stop at the first non-digit,
fail on `u64` overflow. -/
def atoi (bs : List Nat) : Option Nat :=
  match bs with
  | [] => none
  | b :: _ => if isAsciiDigit b then atoiLoop bs 0 else none

/-! ### The `Parse` cursor (parse.rs) -/

/-- `parse.rs`, `enum ParseError`: the recoverable end-of-cursor error
and the fatal rest. -/
inductive ParseError where
  | EndOfStream
  | Other (msg : String)

/-- The `Display` rendering of a `ParseError` (parse.rs). -/
def ParseError.display : ParseError → String
  | .EndOfStream => "protocol error; unexpected end of stream"
  | .Other msg => msg

/-- The string conversion used by `Parse::next_string` (parse.rs):
Simple yields its text, Bulk is decoded as UTF-8, anything else is a
protocol error. -/
def frameToString : Frame → Except ParseError String
  | .Simple s => .ok s
  | .Bulk data =>
    match utf8Decode data with
    | some s => .ok s
    | none => .error (.Other "protocol error; invalid string")
  | _ => .error (.Other "protocol error; expected simple frame or bulk frame")

/-- The bytes conversion used by `Parse::next_bytes` (parse.rs). -/
def frameToBytes : Frame → Except ParseError Bytes
  | .Simple s => .ok (utf8Encode s)
  | .Bulk data => .ok data
  | _ => .error (.Other "protocol error; expected simple frame or bulk frame")

/-- The integer conversion used by `Parse::next_int` (parse.rs):
Integer frames directly, Simple/Bulk through `atoi`. -/
def frameToInt : Frame → Except ParseError Nat
  | .Integer v => .ok v
  | .Simple data =>
    match atoi (utf8Encode data) with
    | some v => .ok v
    | none => .error (.Other "protocol error; invalid number")
  | .Bulk data =>
    match atoi data with
    | some v => .ok v
    | none => .error (.Other "protocol error; invalid number")
  | _ => .error (.Other "protocol error; expected int frame")

/-- `Parse::new` (parse.rs): only an Array frame can be parsed; the
cursor is the list of its fields. -/
def Parse.new : Frame → Except ParseError (List Frame)
  | .Array array => .ok array
  | _ => .error (.Other "protocol error; expected array")

/-- `Parse::next_string`: take the next field as a string. -/
def Parse.next_string (p : List Frame) : Except ParseError (String × List Frame) :=
  match p with
  | [] => .error .EndOfStream
  | f :: rest => (frameToString f).map (fun s => (s, rest))

/-- `Parse::next_bytes`: take the next field as raw bytes. -/
def Parse.next_bytes (p : List Frame) : Except ParseError (Bytes × List Frame) :=
  match p with
  | [] => .error .EndOfStream
  | f :: rest => (frameToBytes f).map (fun b => (b, rest))

/-- `Parse::next_int`: take the next field as an unsigned integer. -/
def Parse.next_int (p : List Frame) : Except ParseError (Nat × List Frame) :=
  match p with
  | [] => .error .EndOfStream
  | f :: rest => (frameToInt f).map (fun v => (v, rest))

/-- `Parse::finish`: succeeds only when the cursor is exhausted. -/
def Parse.finish (p : List Frame) : Except ParseError Unit :=
  match p with
  | [] => .ok ()
  | _ :: _ => .error (.Other "protocol error; expected end of frame, but there was more")

/-- `str::to_lowercase`, restricted to its ASCII action (the command
names compared against are all ASCII). -/
def stringToLower (s : String) : String := { data := s.data.map Char.toLower }

/-- `str::to_uppercase`, restricted to its ASCII action (the option
tokens compared against, `EX` and `PX`, are ASCII). -/
def stringToUpper (s : String) : String := { data := s.data.map Char.toUpper }

/-! ### The command set (cmd/*.rs) -/

/-- The `Command` variants (cmd/mod.rs), with each command's parsed
fields inlined. -/
inductive Command where
  | Get (key : String)
  | Publish (channel : String) (message : Bytes)
  | Set (key : String) (value : Bytes) (expire : Option Duration)
  | Subscribe (channels : List String)
  | Unsubscribe (channels : List String)
  | Ping (msg : Option Bytes)
  | Unknown (name : String)
deriving DecidableEq, Repr

/-- `Get::parse_frames` (cmd/get.rs): one required key. -/
def Get.parse_frames (p : List Frame) : Except String (String × List Frame) :=
  (Parse.next_string p).mapError ParseError.display

/-- `Publish::parse_frames` (cmd/publish.rs): channel then message. -/
def Publish.parse_frames (p : List Frame) :
    Except String ((String × Bytes) × List Frame) :=
  match Parse.next_string p with
  | .error e => .error e.display
  | .ok (channel, p) =>
    match Parse.next_bytes p with
    | .error e => .error e.display
    | .ok (message, p) => .ok ((channel, message), p)

/-- `Set::parse_frames` (cmd/set.rs): key and value are required; an
optional third token selects EX (whole seconds) or PX (whole
milliseconds) after upper-casing; `EndOfStream` means no option; any
other token is an error. -/
def Set.parse_frames (p : List Frame) :
    Except String ((String × Bytes × Option Duration) × List Frame) :=
  match Parse.next_string p with
  | .error e => .error e.display
  | .ok (key, p) =>
    match Parse.next_bytes p with
    | .error e => .error e.display
    | .ok (value, p) =>
      match Parse.next_string p with
      | .ok (s, p') =>
        if stringToUpper s = "EX" then
          match Parse.next_int p' with
          | .error e => .error e.display
          | .ok (secs, p'') => .ok ((key, value, some (Duration.fromSecs secs)), p'')
        else if stringToUpper s = "PX" then
          match Parse.next_int p' with
          | .error e => .error e.display
          | .ok (ms, p'') => .ok ((key, value, some (Duration.fromMillis ms)), p'')
        else .error "目前 `SET` 仅支持过期选项"
      | .error .EndOfStream => .ok ((key, value, none), p)
      | .error e => .error e.display

/-- The channel-collecting loop shared by `Subscribe::parse_frames` and
`Unsubscribe::parse_frames` (cmd/subscribe.rs): keep taking strings
until the cursor's end; any non-string field is an error. -/
def parseChannelsLoop : List Frame → List String → Except String (List String × List Frame)
  | [], acc => .ok (acc, [])
  | f :: rest, acc =>
    match frameToString f with
    | .ok s => parseChannelsLoop rest (acc ++ [s])
    | .error e => .error e.display

/-- `Subscribe::parse_frames` (cmd/subscribe.rs): at least one channel. -/
def Subscribe.parse_frames (p : List Frame) :
    Except String (List String × List Frame) :=
  match Parse.next_string p with
  | .error e => .error e.display
  | .ok (first, p') => parseChannelsLoop p' [first]

/-- `Unsubscribe::parse_frames` (cmd/subscribe.rs): possibly empty
channel list. -/
def Unsubscribe.parse_frames (p : List Frame) :
    Except String (List String × List Frame) :=
  parseChannelsLoop p []

/-- `Ping::parse_frames` (cmd/ping.rs): optional message. -/
def Ping.parse_frames (p : List Frame) :
    Except String (Option Bytes × List Frame) :=
  match Parse.next_bytes p with
  | .ok (msg, p') => .ok (some msg, p')
  | .error .EndOfStream => .ok (none, p)
  | .error e => .error e.display

/-- The name dispatch of `Command::from_frame` (cmd/mod.rs): the
recognized lower-cased names select a command's own parser; any other
name yields `none` (the `Unknown` early return). -/
def Command.parserFor (command_name : String) (p : List Frame) :
    Option (Except String (Command × List Frame)) :=
  if command_name = "get" then
    some ((Get.parse_frames p).map fun x => (Command.Get x.1, x.2))
  else if command_name = "publish" then
    some ((Publish.parse_frames p).map fun x => (Command.Publish x.1.1 x.1.2, x.2))
  else if command_name = "set" then
    some ((Set.parse_frames p).map fun x => (Command.Set x.1.1 x.1.2.1 x.1.2.2, x.2))
  else if command_name = "subscribe" then
    some ((Subscribe.parse_frames p).map fun x => (Command.Subscribe x.1, x.2))
  else if command_name = "unsubscribe" then
    some ((Unsubscribe.parse_frames p).map fun x => (Command.Unsubscribe x.1, x.2))
  else if command_name = "ping" then
    some ((Ping.parse_frames p).map fun x => (Command.Ping x.1, x.2))
  else none

/-- `Command::from_frame` (cmd/mod.rs): wrap the Array frame in a
cursor, read the first token as a string and lower-case it; an
unrecognized name short-circuits to `Unknown` (skipping the exhaustion
check); a recognized name runs its parser and then asserts cursor
exhaustion via `Parse::finish`. -/
def Command.from_frame (frame : Frame) : Except String Command :=
  match Parse.new frame with
  | .error e => .error e.display
  | .ok p0 =>
    match Parse.next_string p0 with
    | .error e => .error e.display
    | .ok (name, p1) =>
      let command_name := stringToLower name
      match Command.parserFor command_name p1 with
      | none => .ok (Command.Unknown command_name)
      | some r =>
        match r with
        | .error e => .error e
        | .ok (command, p2) =>
          match Parse.finish p2 with
          | .error e => .error e.display
          | .ok _ => .ok command

/-- C4: for an Array frame whose first token is the string `name`,
dispatch happens on the lower-cased name: a name outside
{get, publish, set, subscribe, unsubscribe, ping} (exactly the names
`parserFor` rejects) makes `from_frame` return `Unknown` without any
exhaustion check — whatever trailing fields remain; for a recognized
name whose parser succeeds leaving unconsumed fields, `from_frame`
returns the `finish` protocol error. -/
theorem C4_from_frame_dispatch (name : String) (rest : List Frame) :
    (Command.parserFor (stringToLower name) rest = none ↔
      stringToLower name ∉
        (["get", "publish", "set", "subscribe", "unsubscribe", "ping"] : List String)) ∧
    (Command.parserFor (stringToLower name) rest = none →
      Command.from_frame (Frame.Array (Frame.Simple name :: rest)) =
        Except.ok (Command.Unknown (stringToLower name))) ∧
    (∀ c p2, Command.parserFor (stringToLower name) rest = some (Except.ok (c, p2)) →
      p2 ≠ [] →
      Command.from_frame (Frame.Array (Frame.Simple name :: rest)) =
        Except.error "protocol error; expected end of frame, but there was more") := by
  refine ⟨?_, ?_, ?_⟩
  · unfold Command.parserFor
    split_ifs with h1 h2 h3 h4 h5 h6 <;> simp_all
  · intro hnone
    simp [Command.from_frame, Parse.new, Parse.next_string, frameToString, Except.map, hnone]
  · intro c p2 hsome hne
    cases p2 with
    | nil => exact absurd rfl hne
    | cons f fs =>
      simp [Command.from_frame, Parse.new, Parse.next_string, frameToString, Except.map,
        hsome, Parse.finish, ParseError.display]

/-- C4 witness: an unrecognized name (with a trailing field left
unconsumed) yields `Unknown`; a recognized `GET` with a surplus field
yields the exhaustion protocol error. -/
theorem C4_witness :
    Command.from_frame (Frame.Array [Frame.Simple "FLUSHDB", Frame.Simple "junk"]) =
      Except.ok (Command.Unknown "flushdb") ∧
    Command.from_frame
        (Frame.Array [Frame.Simple "GET", Frame.Simple "k", Frame.Simple "x"]) =
      Except.error "protocol error; expected end of frame, but there was more" := by
  constructor
  · exact (C4_from_frame_dispatch "FLUSHDB" [Frame.Simple "junk"]).2.1 rfl
  · exact (C4_from_frame_dispatch "GET" [Frame.Simple "k", Frame.Simple "x"]).2.2
      (Command.Get "k") [Frame.Simple "x"] rfl (by simp)

/-- The response `Set::apply` writes on success (cmd/set.rs): `+OK`. -/
def Set.applyResponse : Frame := Frame.Simple "OK"

/-- C5: `SET` parsing after key and value: no third token means no
expiration; a token upper-casing to `EX` followed by an integer `n`
yields `n` whole seconds; a token upper-casing to `PX` followed by an
integer `m` yields `m` whole milliseconds; any other string token fails
with a protocol error; and on success the server replies `+OK`. -/
theorem C5_set_parse (k : String) (v : Bytes) :
    (Set.parse_frames [Frame.Simple k, Frame.Bulk v] =
      Except.ok ((k, v, none), [])) ∧
    (∀ s n rest, stringToUpper s = "EX" →
      Set.parse_frames
          (Frame.Simple k :: Frame.Bulk v :: Frame.Simple s :: Frame.Integer n :: rest) =
        Except.ok ((k, v, some (Duration.fromSecs n)), rest)) ∧
    (∀ s m rest, stringToUpper s = "PX" →
      Set.parse_frames
          (Frame.Simple k :: Frame.Bulk v :: Frame.Simple s :: Frame.Integer m :: rest) =
        Except.ok ((k, v, some (Duration.fromMillis m)), rest)) ∧
    (∀ s rest, stringToUpper s ≠ "EX" → stringToUpper s ≠ "PX" →
      Set.parse_frames (Frame.Simple k :: Frame.Bulk v :: Frame.Simple s :: rest) =
        Except.error "目前 `SET` 仅支持过期选项") ∧
    (∀ n, Duration.fromSecs n = 1000 * n ∧ Duration.fromMillis n = n) ∧
    Set.applyResponse = Frame.Simple "OK" := by
  refine ⟨?_, ?_, ?_, ?_, fun n => ⟨rfl, rfl⟩, rfl⟩
  · simp [Set.parse_frames, Parse.next_string, Parse.next_bytes, frameToString,
      frameToBytes, Except.map]
  · intro s n rest hEX
    simp [Set.parse_frames, Parse.next_string, Parse.next_bytes, Parse.next_int,
      frameToString, frameToBytes, frameToInt, Except.map, hEX]
  · intro s m rest hPX
    simp [Set.parse_frames, Parse.next_string, Parse.next_bytes, Parse.next_int,
      frameToString, frameToBytes, frameToInt, Except.map, hPX]
  · intro s rest hEX hPX
    simp [Set.parse_frames, Parse.next_string, Parse.next_bytes,
      frameToString, frameToBytes, Except.map, hEX, hPX]

/-- C5 witness: concrete `SET` frames with no option, with `ex 5`,
with `px 100`, and with a bad option token. -/
theorem C5_witness :
    Set.parse_frames [Frame.Simple "foo", Frame.Bulk [98]] =
      Except.ok (("foo", [98], none), []) ∧
    Set.parse_frames [Frame.Simple "foo", Frame.Bulk [98], Frame.Simple "ex",
        Frame.Integer 5] =
      Except.ok (("foo", [98], some (Duration.fromSecs 5)), []) ∧
    Set.parse_frames [Frame.Simple "foo", Frame.Bulk [98], Frame.Simple "px",
        Frame.Integer 100] =
      Except.ok (("foo", [98], some (Duration.fromMillis 100)), []) ∧
    Set.parse_frames [Frame.Simple "foo", Frame.Bulk [98], Frame.Simple "xx"] =
      Except.error "目前 `SET` 仅支持过期选项" := by
  have h := C5_set_parse "foo" [98]
  exact ⟨h.1, h.2.1 "ex" 5 [] rfl, h.2.2.1 "px" 100 [] rfl,
    h.2.2.2.1 "xx" [] (by decide) (by decide)⟩

/-! ### C7: the Unsubscribe arm of `handle_command` (cmd/subscribe.rs) -/

/-- `StreamMap::remove` keyed by channel name; the handler's
subscription map is modelled by its list of keys in insertion order. -/
def streamMapRemove (channel : String) (subs : List String) : List String :=
  subs.filter (fun k => decide (k ≠ channel))

/-- `make_unsubscribe_frame` (cmd/subscribe.rs): the ack
`["unsubscribe", channel, remaining]`. -/
def make_unsubscribe_frame (channel_name : String) (num_subs : Nat) : Frame :=
  Frame.Array [Frame.Bulk (utf8Encode "unsubscribe"),
    Frame.Bulk (utf8Encode channel_name), Frame.Integer num_subs]

/-- The per-channel loop of the Unsubscribe arm of `handle_command`:
remove each requested channel from the subscription map and write one
ack carrying the map size measured after that removal. -/
def unsubscribeEach : List String → List String → List String × List Frame
  | [], subs => (subs, [])
  | c :: cs, subs =>
    let subs' := streamMapRemove c subs
    let r := unsubscribeEach cs subs'
    (r.1, make_unsubscribe_frame c subs'.length :: r.2)

/-- The Unsubscribe arm of `handle_command` (cmd/subscribe.rs): an
empty channel list is first replaced by all currently subscribed
channels, then each channel is removed and acknowledged. -/
def handle_unsubscribe (channels subscriptions : List String) :
    List String × List Frame :=
  let channels := if channels.isEmpty then subscriptions else channels
  unsubscribeEach channels subscriptions

/-- C7: an empty UNSUBSCRIBE is replaced by the list of currently
subscribed channels; each requested channel is removed from the map and
acknowledged with the map size after that removal (one ack per
requested channel); in particular a client subscribed to exactly the
two distinct channels `a, b` that sends an empty UNSUBSCRIBE receives
exactly the two acks with counts 1 then 0. -/
theorem C7_unsubscribe_acks (a b : String) (hab : a ≠ b)
    (channels subs : List String) :
    (handle_unsubscribe [] [a, b] =
      ([], [make_unsubscribe_frame a 1, make_unsubscribe_frame b 0])) ∧
    (handle_unsubscribe [] subs = unsubscribeEach subs subs) ∧
    (channels ≠ [] → handle_unsubscribe channels subs = unsubscribeEach channels subs) ∧
    (∀ c cs, unsubscribeEach (c :: cs) subs =
      ((unsubscribeEach cs (streamMapRemove c subs)).1,
        make_unsubscribe_frame c (streamMapRemove c subs).length ::
          (unsubscribeEach cs (streamMapRemove c subs)).2)) ∧
    ((unsubscribeEach channels subs).2.length = channels.length) := by
  refine ⟨?_, rfl, ?_, fun c cs => rfl, ?_⟩
  · have hba : b ≠ a := fun h => hab h.symm
    simp [handle_unsubscribe, unsubscribeEach, streamMapRemove, hab, hba]
  · intro hne
    cases channels with
    | nil => exact absurd rfl hne
    | cons c cs => rfl
  · induction channels generalizing subs with
    | nil => simp [unsubscribeEach]
    | cons c cs ih => simp [unsubscribeEach, ih]

/-- C7 witness: the two-channel scenario at concrete channels. -/
theorem C7_witness :
    handle_unsubscribe [] ["a", "b"] =
      ([], [make_unsubscribe_frame "a" 1, make_unsubscribe_frame "b" 0]) :=
  (C7_unsubscribe_acks "a" "b" (by decide) [] []).1

/-! ### C9: the client's `Subscriber::unsubscribe` (clients/client.rs) -/

/-- Modelled from the spec: `frame.rs` is absent from the sources; the
ack checks of §4.8 compare a frame against a string literal
(`PartialEq<&str>` on `Frame`): a Simple or Bulk frame equals the
string when its text (respectively UTF-8 bytes) matches; other
variants never do. -/
def frameEqStr (f : Frame) (s : String) : Bool :=
  match f with
  | .Simple t => t == s
  | .Bulk data => data == utf8Encode s
  | _ => false

/-- The expected number of acks in `Subscriber::unsubscribe`
(clients/client.rs): the requested channel count, or the locally
tracked subscription count when the request is empty. -/
def Subscriber.unsubscribeNum (channels subscribed : List String) : Nat :=
  if channels.isEmpty then subscribed.length else channels.length

/-- One ack of `Subscriber::unsubscribe` (clients/client.rs): the
response must be an Array of at least two fields whose first equals
`"unsubscribe"`; an empty local subscription list is an error; every
matching channel is removed (`retain`); unless the length dropped by
exactly one, the response is an error. -/
def Subscriber.processAck (subscribed : List String) (response : Frame) :
    Except Frame (List String) :=
  match response with
  | .Array (unsub :: channel :: _) =>
    if frameEqStr unsub "unsubscribe" then
      let len := subscribed.length
      if len = 0 then .error response
      else
        let subscribed' := subscribed.filter (fun c => !(frameEqStr channel c))
        if subscribed'.length = len - 1 then .ok subscribed' else .error response
    else .error response
  | _ => .error response

/-- The ack-reading loop of `Subscriber::unsubscribe`: one
`read_response` per expected ack. -/
def Subscriber.processAcks : List String → List Frame → Except Frame (List String)
  | subscribed, [] => .ok subscribed
  | subscribed, r :: rs =>
    match Subscriber.processAck subscribed r with
    | .ok subscribed' => Subscriber.processAcks subscribed' rs
    | .error f => .error f

/-- `Subscriber::unsubscribe` (clients/client.rs), given the responses
the server sends back: read exactly the expected number of acks. -/
def Subscriber.unsubscribe (channels subscribed : List String)
    (responses : List Frame) : Except Frame (List String) :=
  Subscriber.processAcks subscribed
    (responses.take (Subscriber.unsubscribeNum channels subscribed))

/-- C9: the client expects one ack per requested channel (or one per
locally tracked channel when the request is empty); an ack received
with an empty local list is an error, whatever the ack; a successful
ack shrinks the local list by exactly one (the matching channel is
removed, and any other removal count is an error); and an ack whose
first element is not `"unsubscribe"` is an error. -/
theorem C9_client_unsubscribe (channels subscribed subs : List String) (r : Frame) :
    (Subscriber.unsubscribeNum channels subscribed =
      if channels = [] then subscribed.length else channels.length) ∧
    (Subscriber.processAck [] r = Except.error r) ∧
    (∀ s', Subscriber.processAck subs r = Except.ok s' →
      s'.length + 1 = subs.length) ∧
    (∀ u c rest2, frameEqStr u "unsubscribe" = false →
      Subscriber.processAck subs (Frame.Array (u :: c :: rest2)) =
        Except.error (Frame.Array (u :: c :: rest2))) := by
  refine ⟨?_, ?_, ?_, ?_⟩
  · cases channels <;> simp [Subscriber.unsubscribeNum]
  · cases r with
    | Array fs =>
      match fs with
      | [] => rfl
      | [x] => rfl
      | u :: c :: rest2 =>
        cases hguard : frameEqStr u "unsubscribe" <;>
          simp [Subscriber.processAck, hguard]
    | Simple s => rfl
    | Error s => rfl
    | Integer n => rfl
    | Bulk d => rfl
    | Null => rfl
  · intro s' h
    cases r with
    | Array fs =>
      match fs with
      | [] => cases h
      | [x] => cases h
      | u :: c :: rest2 =>
        simp only [Subscriber.processAck] at h
        split at h
        · split at h
          · cases h
          · next hlen =>
            split at h
            · next hflen =>
              injection h with hs
              rw [← hs]
              omega
            · cases h
        · cases h
    | Simple s => cases h
    | Error s => cases h
    | Integer n => cases h
    | Bulk d => cases h
    | Null => cases h
  · intro u c rest2 hguard
    simp [Subscriber.processAck, hguard]

/-- C9 witness: a well-formed ack against the single subscription
`["a"]` succeeds and shrinks the list by one; a frame whose first
element is not `"unsubscribe"` errors. -/
theorem C9_witness :
    ([] : List String).length + 1 = ["a"].length ∧
    Subscriber.processAck ["a"]
        (Frame.Array [Frame.Simple "message", Frame.Simple "a"]) =
      Except.error (Frame.Array [Frame.Simple "message", Frame.Simple "a"]) := by
  constructor
  · exact (C9_client_unsubscribe [] [] ["a"]
      (Frame.Array [Frame.Bulk (utf8Encode "unsubscribe"),
        Frame.Bulk (utf8Encode "a")])).2.2.1 [] rfl
  · exact (C9_client_unsubscribe [] [] ["a"]
      (Frame.Array [Frame.Simple "message", Frame.Simple "a"])).2.2.2
      (Frame.Simple "message") (Frame.Simple "a") [] rfl

/-! ### C8: the acceptor's backoff loop (server.rs) -/

/-- One observed outcome of `TcpListener::accept`. -/
inductive AcceptOutcome where
  | ok (socket : Nat)
  | err (msg : String)

/-- The retry loop of `Listener::accept` (server.rs), over a prescribed
list of accept outcomes: a success returns the socket at once; a
failure returns the error if the backoff exceeds 64, otherwise the loop
sleeps for the current backoff and doubles it.  The result carries the
outcome (`none` when the outcome list runs out while the loop would
continue waiting) and the list of sleeps performed, in seconds. -/
def acceptLoop : Nat → List AcceptOutcome → Option (Except String Nat) × List Nat
  | _, [] => (none, [])
  | _, .ok socket :: _ => (some (.ok socket), [])
  | backoff, .err msg :: rest =>
    if backoff > 64 then (some (.error msg), [])
    else
      let r := acceptLoop (backoff * 2) rest
      (r.1, backoff :: r.2)

/-- `Listener::accept` (server.rs): every call starts from a fresh
1-second backoff. -/
def Listener.accept (outcomes : List AcceptOutcome) :
    Option (Except String Nat) × List Nat :=
  acceptLoop 1 outcomes

lemma acceptLoop_errs (msgs : List String) (i : Nat) (tail : List AcceptOutcome)
    (h : i + msgs.length ≤ 7) :
    acceptLoop (2 ^ i) (msgs.map .err ++ tail) =
      ((acceptLoop (2 ^ (i + msgs.length)) tail).1,
        (List.range msgs.length).map (fun j => 2 ^ (i + j)) ++
          (acceptLoop (2 ^ (i + msgs.length)) tail).2) := by
  induction msgs generalizing i with
  | nil => simp
  | cons m ms ih =>
    have hi : i ≤ 6 := by
      simp only [List.length_cons] at h
      omega
    have hle : 2 ^ i ≤ 64 := by
      calc 2 ^ i ≤ 2 ^ 6 := Nat.pow_le_pow_right (by norm_num) hi
        _ = 64 := by norm_num
    have hih := ih (i + 1) (by simp only [List.length_cons] at h; omega)
    simp only [List.map_cons, List.cons_append, acceptLoop,
      if_neg (Nat.not_lt.mpr hle), List.append_eq]
    rw [show 2 ^ i * 2 = 2 ^ (i + 1) from (pow_succ 2 i).symm, hih]
    have harith : i + 1 + ms.length = i + (ms.length + 1) := by omega
    rw [harith]
    refine Prod.ext rfl ?_
    have hfun : (fun j => 2 ^ (i + 1 + j)) = ((fun j => 2 ^ (i + j)) ∘ Nat.succ) := by
      funext j
      simp only [Function.comp_apply]
      congr 1
      omega
    simp only [List.length_cons, List.range_succ_eq_map, List.map_cons, List.map_map,
      List.cons_append, Nat.add_zero, hfun]

lemma acceptLoop_error_shape (outcomes : List AcceptOutcome) (backoff : Nat)
    (msg : String) (h : (acceptLoop backoff outcomes).1 = some (.error msg)) :
    ∃ (msgs : List String) (rest : List AcceptOutcome),
      outcomes = msgs.map AcceptOutcome.err ++ .err msg :: rest ∧
      backoff * 2 ^ msgs.length > 64 ∧ ∀ j < msgs.length, backoff * 2 ^ j ≤ 64 := by
  induction outcomes generalizing backoff with
  | nil => simp [acceptLoop] at h
  | cons o os ih =>
    cases o with
    | ok s => simp [acceptLoop] at h
    | err m =>
      by_cases hb : backoff > 64
      · rw [acceptLoop, if_pos hb] at h
        simp only [Option.some.injEq, Except.error.injEq] at h
        refine ⟨[], os, by simp [h], by simpa using hb, by simp⟩
      · rw [acceptLoop, if_neg hb] at h
        obtain ⟨msgs, rest, heq, hgt, hall⟩ := ih (backoff * 2) h
        refine ⟨m :: msgs, rest, by simp [heq], ?_, ?_⟩
        · have : backoff * 2 * 2 ^ msgs.length = backoff * 2 ^ (msgs.length + 1) := by
            ring
          simpa [this] using hgt
        · intro j hj
          cases j with
          | zero => simpa using Nat.not_lt.mp hb
          | succ j' =>
            have hj' := hall j' (by simpa using hj)
            have : backoff * 2 * 2 ^ j' = backoff * 2 ^ (j' + 1) := by ring
            simpa [this] using hj'

/-- C8: the acceptor returns the socket immediately on the first
success; each failure sleeps for the current backoff (1 s, doubling
each time) as long as the backoff has not exceeded 64 s; after seven
failed attempts (sleeps 1, 2, 4, 8, 16, 32, 64) the eighth failure
finds the backoff at 128 > 64 and returns the accept error; and an
error is returned only in exactly that situation — a fresh call always
starts again from a 1-second backoff (by definition of
`Listener.accept`). -/
theorem C8_accept_backoff :
    (∀ s rest, Listener.accept (.ok s :: rest) = (some (.ok s), [])) ∧
    (∀ (msgs : List String) (s : Nat) (rest : List AcceptOutcome), msgs.length ≤ 7 →
      Listener.accept (msgs.map AcceptOutcome.err ++ .ok s :: rest) =
        (some (.ok s), (List.range msgs.length).map (fun i => 2 ^ i))) ∧
    (∀ (msgs : List String) (msg : String) (rest : List AcceptOutcome), msgs.length = 7 →
      Listener.accept (msgs.map AcceptOutcome.err ++ .err msg :: rest) =
        (some (.error msg), [1, 2, 4, 8, 16, 32, 64])) ∧
    (∀ outcomes msg, (Listener.accept outcomes).1 = some (.error msg) →
      ∃ (msgs : List String) (rest : List AcceptOutcome),
        outcomes = msgs.map AcceptOutcome.err ++ .err msg :: rest ∧
        msgs.length = 7) := by
  refine ⟨fun s rest => rfl, ?_, ?_, ?_⟩
  · intro msgs s rest hlen
    have h := acceptLoop_errs msgs 0 (.ok s :: rest) (by omega)
    simp only [pow_zero] at h
    rw [Listener.accept, h]
    simp [acceptLoop]
  · intro msgs msg rest hlen
    have h := acceptLoop_errs msgs 0 (.err msg :: rest) (by omega)
    simp only [pow_zero] at h
    rw [Listener.accept, h, hlen]
    have h128 : (2 : Nat) ^ (0 + 7) > 64 := by norm_num
    rw [acceptLoop, if_pos h128]
    refine Prod.ext rfl ?_
    show List.map (fun j => 2 ^ (0 + j)) (List.range 7) ++ [] = [1, 2, 4, 8, 16, 32, 64]
    decide
  · intro outcomes msg h
    obtain ⟨msgs, rest, heq, hgt, hall⟩ :=
      acceptLoop_error_shape outcomes 1 msg h
    refine ⟨msgs, rest, heq, ?_⟩
    simp only [Nat.one_mul] at hgt hall
    by_contra hne
    rcases Nat.lt_or_ge msgs.length 7 with hlt | hge
    · have hsmall : 2 ^ msgs.length ≤ 64 := by
        calc 2 ^ msgs.length ≤ 2 ^ 6 := Nat.pow_le_pow_right (by norm_num) (by omega)
          _ = 64 := by norm_num
      omega
    · have hge8 : 8 ≤ msgs.length := by omega
      have h7 := hall 7 (by omega)
      norm_num at h7

/-- C8 witness: two failures then a success sleeps 1 s and 2 s; eight
straight failures give up with sleeps 1, 2, 4, 8, 16, 32, 64; a first
success is immediate. -/
theorem C8_witness :
    Listener.accept [.ok 9] = (some (.ok 9), []) ∧
    Listener.accept [.err "a", .err "b", .ok 9] = (some (.ok 9), [1, 2]) ∧
    Listener.accept ((["a", "b", "c", "d", "e", "f", "g"].map .err) ++
        [.err "h", .ok 9]) = (some (.error "h"), [1, 2, 4, 8, 16, 32, 64]) := by
  refine ⟨C8_accept_backoff.1 9 [], ?_, ?_⟩
  · have h := C8_accept_backoff.2.1 ["a", "b"] 9 [] (by decide)
    simpa using h
  · exact C8_accept_backoff.2.2.1 ["a", "b", "c", "d", "e", "f", "g"] "h" [.ok 9] rfl

/-! ### C6: `Connection::read_frame` EOF behaviour (connection.rs) -/

/-- Result of scanning for one CRLF-terminated line. -/
inductive LineResult where
  | line (content rest : List Nat)
  | incomplete
  | invalid

/-- Modelled from the spec: `frame.rs` (with `Frame::check` /
`Frame::parse`) is absent from the sources.  Spec §4.1: all lines
terminate with CRLF; a bare CR (not followed by LF) or a bare LF is
invalid; running out of bytes is Incomplete. -/
def getLine : List Nat → LineResult
  | [] => .incomplete
  | 13 :: rest =>
    match rest with
    | [] => .incomplete
    | 10 :: rest' => .line [] rest'
    | _ => .invalid
  | 10 :: _ => .invalid
  | b :: rest =>
    match getLine rest with
    | .line content r => .line (b :: content) r
    | r => r

/-- Modelled from the spec: decimal decoding (§4.1) — ASCII digits
only, an unsigned 64-bit value. -/
def decodeDecimal (content : List Nat) : Option Nat :=
  if content ≠ [] && content.all isAsciiDigit then
    let n := content.foldl (fun acc b => acc * 10 + (b - 48)) 0
    if n < 2 ^ 64 then some n else none
  else none

/-- Result of the RESP decode pass over the read buffer: a frame and
the remaining bytes, or Incomplete, or Invalid (spec §4.1: decode is
total, yielding exactly one of Ok / Incomplete / Invalid). -/
inductive DecodeResult where
  | done (frame : Frame) (rest : List Nat)
  | incomplete
  | invalid (msg : String)

/-- Modelled from the spec: decoding of the non-array RESP forms
(§4.1): `+text`, `-text`, `:decimal`, `$len` followed by exactly `len`
bytes and CRLF, `$-1` for Null.  Simple and Error lines are UTF-8
text. -/
def decodeLiteral (bs : List Nat) : DecodeResult :=
  match bs with
  | [] => .incomplete
  | 43 :: rest =>
    match getLine rest with
    | .line content r =>
      match utf8Decode content with
      | some s => .done (.Simple s) r
      | none => .invalid "protocol error; invalid frame format"
    | .incomplete => .incomplete
    | .invalid => .invalid "protocol error; invalid frame format"
  | 45 :: rest =>
    match getLine rest with
    | .line content r =>
      match utf8Decode content with
      | some s => .done (.Error s) r
      | none => .invalid "protocol error; invalid frame format"
    | .incomplete => .incomplete
    | .invalid => .invalid "protocol error; invalid frame format"
  | 58 :: rest =>
    match getLine rest with
    | .line content r =>
      match decodeDecimal content with
      | some n => .done (.Integer n) r
      | none => .invalid "protocol error; invalid frame format"
    | .incomplete => .incomplete
    | .invalid => .invalid "protocol error; invalid frame format"
  | 36 :: rest =>
    match getLine rest with
    | .line content r =>
      if content = [45, 49] then .done .Null r
      else
        match decodeDecimal content with
        | some len =>
          if r.length < len + 2 then .incomplete
          else
            match r.drop len with
            | 13 :: 10 :: r' => .done (.Bulk (r.take len)) r'
            | _ => .invalid "protocol error; invalid frame format"
        | none => .invalid "protocol error; invalid frame format"
    | .incomplete => .incomplete
    | .invalid => .invalid "protocol error; invalid frame format"
  | _ => .invalid "protocol error; invalid frame type byte"

/-- Result of decoding a run of array elements. -/
inductive ElemsResult where
  | done (frames : List Frame) (rest : List Nat)
  | incomplete
  | invalid (msg : String)

/-- Modelled from the spec: the `n` elements following an array header
are decoded sequentially; arrays occur only at top level (§3), so each
element is a literal. -/
def decodeElems : Nat → List Nat → ElemsResult
  | 0, bs => .done [] bs
  | n + 1, bs =>
    match decodeLiteral bs with
    | .done f r =>
      match decodeElems n r with
      | .done fs r' => .done (f :: fs) r'
      | .incomplete => .incomplete
      | .invalid m => .invalid m
    | .incomplete => .incomplete
    | .invalid m => .invalid m

/-- Modelled from the spec: the full decode pass of §4.1 — an `*`
header introduces an array of `n` frames (`*-1` is the null-array
encoding, recognized on decode); every other leading byte is a
literal. This single traversal plays the role of both `Frame::check`
and `Frame::parse`, which scan the same grammar. -/
def frameDecode (bs : List Nat) : DecodeResult :=
  match bs with
  | 42 :: rest =>
    match getLine rest with
    | .line content r =>
      if content = [45, 49] then .done .Null r
      else
        match decodeDecimal content with
        | some n =>
          match decodeElems n r with
          | .done fs r' => .done (.Array fs) r'
          | .incomplete => .incomplete
          | .invalid m => .invalid m
        | none => .invalid "protocol error; invalid frame format"
    | .incomplete => .incomplete
    | .invalid => .invalid "protocol error; invalid frame format"
  | _ => decodeLiteral bs

/-- `Connection::parse_frame` (connection.rs): run the check/parse pass
over the buffered bytes; a complete frame is returned and its bytes
consumed; Incomplete asks for more bytes (`Ok(None)`); Invalid is an
error that terminates the connection. -/
def Connection.parse_frame (buffer : List Nat) :
    Except String (Option (Frame × List Nat)) :=
  match frameDecode buffer with
  | .done frame rest => .ok (some (frame, rest))
  | .incomplete => .ok none
  | .invalid msg => .error msg

/-- `Connection::read_frame` (connection.rs), over a prescribed
sequence of socket reads: parse a frame from the buffer if possible,
otherwise read the next chunk into the buffer and retry; an exhausted
chunk list is the `0 == read_buf(..)` end-of-file case — end of stream
(`Ok(None)`) when the buffer is empty, a connection-reset error when
bytes of a partial frame remain.  The result carries the frame (if
any) with the remaining buffer and chunks. -/
def Connection.read_frame :
    List Nat → List (List Nat) →
      Except String (Option Frame × List Nat × List (List Nat))
  | buffer, chunks =>
    match Connection.parse_frame buffer with
    | .error e => .error e
    | .ok (some (frame, rest)) => .ok (some frame, rest, chunks)
    | .ok none =>
      match chunks with
      | [] =>
        if buffer.isEmpty then .ok (none, buffer, [])
        else .error "连接被对等方重置"
      | c :: cs => Connection.read_frame (buffer ++ c) cs

/-- C6: when `read_frame` observes end of file (no more socket bytes)
while no complete frame can be parsed from the buffer, it returns
end-of-stream (`Ok(None)`) if the buffer is empty, and fails with the
connection-reset error if bytes of a partial frame remain; in neither
case does it fabricate a frame from the partial bytes. -/
theorem C6_read_frame_eof (buffer : List Nat)
    (h : Connection.parse_frame buffer = Except.ok none) :
    Connection.read_frame buffer [] =
      (if buffer.isEmpty then Except.ok (none, buffer, [])
       else Except.error "连接被对等方重置") := by
  rw [Connection.read_frame, h]

/-- C6 witness: an empty buffer at EOF is a clean end of stream; the
partial frame `"+"` (one byte, no line terminator) at EOF is a
connection-reset error. -/
theorem C6_witness :
    Connection.read_frame [] [] = Except.ok (none, [], []) ∧
    Connection.read_frame [43] [] = Except.error "连接被对等方重置" := by
  constructor
  · have h := C6_read_frame_eof [] rfl
    simpa using h
  · have h := C6_read_frame_eof [43] rfl
    simpa using h

end MiniRedis
